import Mathlib

/-!
Verification of the pearlbot link-request lifecycle (src/main.js).

The bot keeps two collections: `pending` (an array of link requests,
persisted to pending.json) and `accounts` (an object mapping discord ids to
account entries, persisted to accounts.json).  The `/link` slash command
appends a new pending request; button interactions (`link_accept_<id>`,
`link_reject_<id>`) resolve a request; a ready-handler reconciles pending
requests with their admin-channel messages after a restart.

JavaScript strings are embedded as Lean `String`s (lists of characters);
JavaScript numbers that hold integers (timestamps, random draws) as `Nat`;
object maps as association lists with unique keys; `null`-able fields as
`Option`.  Whole-file JSON persistence is the identity on the in-memory
collection, so the persisted collection is the one the step functions
return.
-/

namespace Pearlbot

/-- Status values stored in a request's `status` field
(src/main.js: the literals used at lines 186, 274, 290). -/
inductive Status where
  | pending
  | approved
  | rejected
deriving DecidableEq, Repr, Inhabited

/-- A link request record, as built at src/main.js lines 179-189 and mutated
at lines 274-276 / 290-292.  `messageId` is `null` until the admin-channel
message is sent. -/
structure LinkRequest where
  id : String
  requesterId : String
  requesterTag : String
  targetId : String
  targetTag : String
  ign : String
  status : Status
  createdAt : Nat
  messageId : Option String
  resolvedBy : Option String
  resolvedAt : Option Nat
deriving DecidableEq, Repr, Inhabited

/-- An entry of the accounts map (src/main.js line 269:
`{ username: req.targetTag, id: targetId, igns: [] }`). -/
structure AccountEntry where
  username : String
  id : String
  igns : List String
deriving DecidableEq, Repr, Inhabited

/-- The bot's two mutable collections (src/main.js lines 66-67).  The
persisted files mirror these wholesale on every write. -/
structure BotState where
  pending : List LinkRequest
  accounts : List (String × AccountEntry)
deriving DecidableEq, Repr, Inhabited

/-! ### Request-id generation

src/main.js line 178: `` const reqId = `${Date.now()}-${Math.floor(Math.random()*10000)}` ``.
JavaScript renders an integral Number as its decimal digit string; that
conversion is embedded as `natDigits` (fuel-based so that it reduces). -/

/-- Decimal digit list of `n`, most significant first, computed with fuel. -/
def natDigitsAux : Nat → Nat → List Char
  | 0, _ => []
  | fuel + 1, n =>
    if n < 10 then [Nat.digitChar n]
    else natDigitsAux fuel (n / 10) ++ [Nat.digitChar (n % 10)]

/-- Decimal rendering of a natural number, embedding the JavaScript
number-to-string conversion used by the template literal at line 178. -/
def natDigits (n : Nat) : List Char := natDigitsAux (n + 1) n

/-- A generated request id: the millisecond timestamp, a hyphen, and the
random component (src/main.js line 178). -/
def reqId (t r : Nat) : String := String.mk (natDigits t ++ '-' :: natDigits r)

/-- Value of a digit list, used to show `natDigits` is injective. -/
def digitsVal (cs : List Char) : Nat :=
  cs.foldl (fun a c => 10 * a + (c.toNat - 48)) 0

/-! ### The submit path

src/main.js lines 176-191: the handler trims the `ign` option, picks the
target user (`options.getUser('account') || interaction.user`), builds the
request record and pushes it onto `pending`, then writes pending.json.
There is no validation of `ign` beyond the trim. -/

/-- JavaScript `String.prototype.trim`: drop whitespace from both ends. -/
def jsTrim (s : String) : String :=
  String.mk (((s.data.dropWhile Char.isWhitespace).reverse.dropWhile
    Char.isWhitespace).reverse)

/-- A user as seen by the handler: id, username, discriminator. -/
structure UserRef where
  id : String
  username : String
  discriminator : String
deriving DecidableEq, Repr, Inhabited

/-- Tag string `${user.username}#${user.discriminator}` (lines 182, 184). -/
def userTag (u : UserRef) : String := u.username ++ "#" ++ u.discriminator

/-- The request record built at src/main.js lines 179-189. -/
def mkRequest (now rand : Nat) (invoker target : UserRef)
    (rawIgn : String) : LinkRequest :=
  { id := reqId now rand
    requesterId := invoker.id
    requesterTag := userTag invoker
    targetId := target.id
    targetTag := userTag target
    ign := jsTrim rawIgn
    status := .pending
    createdAt := now
    messageId := none
    resolvedBy := none
    resolvedAt := none }

/-- The `/link` submit path up to and including the first persisted write
(src/main.js lines 176-191): the new record is appended unconditionally.
`now` is `Date.now()` and `rand` is `Math.floor(Math.random()*10000)`. -/
def submitLink (st : BotState) (now rand : Nat) (invoker : UserRef)
    (account : Option UserRef) (rawIgn : String) : BotState × LinkRequest :=
  let target := account.getD invoker
  let req := mkRequest now rand invoker target rawIgn
  ({ st with pending := st.pending ++ [req] }, req)

/-! ### The resolve path (button interactions)

src/main.js lines 219-305: parse the custom id, look the request up by id,
refuse with an already-`status` reply when the request is terminal, check
admin authorization, then mutate the request (and, on accept, the accounts
map) and persist both. -/

/-- The member data the handler consults (roles cache and permissions). -/
structure GuildMember where
  roleIds : List String
  isAdministrator : Bool
  hasManageGuild : Bool
deriving DecidableEq, Repr, Inhabited

/-- Admin check of src/main.js lines 242-252: when the configured role list
is non-empty, membership in one of those roles; otherwise the
Administrator / ManageGuild permission fallback.  An unresolvable member
stays unauthorized. -/
def hasAdmin (adminRoleIds : List String) : Option GuildMember → Bool
  | some m =>
    if adminRoleIds.length > 0 then
      m.roleIds.any (fun r => adminRoleIds.contains r)
    else m.isAdministrator || m.hasManageGuild
  | none => false

/-- Outcome of a button interaction, mirroring the handler's four reply
paths (not found / already resolved / no permission / resolved). -/
inductive ResolveOutcome where
  | notFound
  | alreadyResolved (prior : Status)
  | unauthorized
  | resolved (req : LinkRequest)
deriving DecidableEq, Repr, Inhabited

/-- The mutation applied to the found request (src/main.js lines 274-276
and 290-292): `action === 'accept'` approves, anything else rejects. -/
def resolvedReq (req : LinkRequest) (resolverId : String) (now : Nat)
    (action : String) : LinkRequest :=
  { req with
    status := if action = "accept" then .approved else .rejected
    resolvedBy := some resolverId
    resolvedAt := some now }

/-- Replace the first element satisfying `p`, embedding the in-place
mutation of the object returned by `pending.find(...)`. -/
def updateFirst (p : α → Bool) (f : α → α) : List α → List α
  | [] => []
  | x :: xs => if p x then f x :: xs else x :: updateFirst p f xs

/-- Add `g` to an igns array unless already present (src/main.js line 270:
`if (!entry.igns.includes(req.ign)) entry.igns.push(req.ign)`). -/
def upsertIgns (igns : List String) (g : String) : List String :=
  if igns.contains g then igns else igns ++ [g]

/-- Property lookup `accounts[k]` on the accounts object. -/
def getAccount (accounts : List (String × AccountEntry)) (k : String) :
    Option AccountEntry :=
  (accounts.find? (fun kv => kv.1 == k)).map (fun kv => kv.2)

/-- Property assignment `accounts[k] = v`: overwrite in place when the key
exists, append otherwise. -/
def setAccount : List (String × AccountEntry) → String → AccountEntry →
    List (String × AccountEntry)
  | [], k, v => [(k, v)]
  | kv :: rest, k, v =>
    if kv.1 = k then (k, v) :: rest else kv :: setAccount rest k v

/-- The accept-path upsert (src/main.js lines 268-271): fetch or create the
entry for the target, add the ign if absent, store it back. -/
def upsertAccount (accounts : List (String × AccountEntry))
    (targetId targetTag g : String) : List (String × AccountEntry) :=
  let entry := (getAccount accounts targetId).getD
    { username := targetTag, id := targetId, igns := [] }
  setAccount accounts targetId { entry with igns := upsertIgns entry.igns g }

/-- Target of an approval, `req.targetId || req.requesterId`
(src/main.js line 268; the empty string is the only falsy string). -/
def effectiveTarget (req : LinkRequest) : String :=
  if req.targetId = "" then req.requesterId else req.targetId

/-- One button interaction on request id `rid` (src/main.js lines 219-305),
returning the reply outcome and the collections as persisted afterwards.
The order of the guards follows the source: lookup, terminal-status check,
admin check, then the mutation. -/
def resolveStep (adminRoleIds : List String) (member : Option GuildMember)
    (resolverId : String) (now : Nat) (action : String) (rid : String)
    (st : BotState) : ResolveOutcome × BotState :=
  match st.pending.find? (fun p => p.id == rid) with
  | none => (.notFound, st)
  | some req =>
    if req.status ≠ .pending then (.alreadyResolved req.status, st)
    else if hasAdmin adminRoleIds member = false then (.unauthorized, st)
    else
      let req' := resolvedReq req resolverId now action
      let pending' := updateFirst (fun p => p.id == rid)
        (fun q => resolvedReq q resolverId now action) st.pending
      if action = "accept" then
        (.resolved req',
          { pending := pending',
            accounts := upsertAccount st.accounts (effectiveTarget req)
              req.targetTag req.ign })
      else
        (.resolved req', { pending := pending', accounts := st.accounts })

/-! ### Persistent-store load (src/main.js lines 49-57, 66-67)

`readJson` embeds `JSON.parse(fs.readFileSync(p,'utf8') || 'null') ||
defaultValue` inside a try/catch: a missing file, a parse failure, an empty
file (the `|| 'null'` fallback) and a falsy parse all fall back to the
default; any truthy parsed value is returned unchanged. -/

/-- A parsed JSON value. -/
inductive JVal where
  | null
  | jbool (b : Bool)
  | jnum (n : Int)
  | jstr (s : String)
  | jarr (elems : List JVal)
  | jobj (fields : List (String × JVal))

/-- JavaScript truthiness of a JSON value: `null`, `false`, `0` and the
empty string are falsy; arrays and objects are always truthy. -/
def jsTruthy : JVal → Bool
  | .null => false
  | .jbool b => b
  | .jnum n => decide (n ≠ 0)
  | .jstr s => decide (s ≠ "")
  | .jarr _ => true
  | .jobj _ => true

/-- State of a backing file as the load path distinguishes it. -/
inductive FileState where
  | absent
  | unreadable
  | emptyContent
  | parsed (v : JVal)

/-- The load operation (src/main.js lines 49-57).  `absent` is the
`existsSync` guard, `unreadable` the caught read or parse exception,
`emptyContent` the `'' || 'null'` fallback whose parse yields `null`, and
`parsed v` a successful parse. -/
def readJson : FileState → JVal → JVal
  | .absent, d => d
  | .unreadable, d => d
  | .emptyContent, d => if jsTruthy .null then .null else d
  | .parsed v, d => if jsTruthy v then v else d

/-- Startup load of pending.json with default `[]` (src/main.js line 66). -/
def loadPending (f : FileState) : JVal := readJson f (.jarr [])

/-- Startup load of accounts.json with default `{}` (src/main.js line 67). -/
def loadAccounts (f : FileState) : JVal := readJson f (.jobj [])

/-! ### Startup reconciliation (src/main.js lines 140-169)

For each persisted request with status `pending`: if its saved `messageId`
is truthy and the message can still be fetched, nothing happens; otherwise
a fresh admin message is sent, the new id stored on the request, and
pending.json rewritten.  `live` is the set of message ids the channel can
still fetch; `fresh k` is the id of the k-th newly sent message. -/

/-- Whether the saved message of a request is still fetchable: the
`if (req.messageId)` truthiness guard followed by the fetch attempt. -/
def msgAlive (live : List String) (r : LinkRequest) : Bool :=
  match r.messageId with
  | none => false
  | some m => if m = "" then false else live.contains m

/-- A request gets re-rendered exactly when it is pending and its saved
message is not fetchable. -/
def needsRender (live : List String) (r : LinkRequest) : Bool :=
  decide (r.status = .pending) && !(msgAlive live r)

/-- The reconciliation loop; returns the updated request list (as persisted
by the final write) and the send events as `(request id, new message id)`
pairs in order. -/
def reconcileAux (live : List String) (fresh : Nat → String) :
    Nat → List LinkRequest → List LinkRequest × List (String × String)
  | _, [] => ([], [])
  | k, r :: rs =>
    if needsRender live r then
      let out := reconcileAux live fresh (k + 1) rs
      ({ r with messageId := some (fresh k) } :: out.1,
        (r.id, fresh k) :: out.2)
    else
      let out := reconcileAux live fresh k rs
      (r :: out.1, out.2)

/-- Startup reconciliation over the whole pending collection. -/
def reconcile (live : List String) (fresh : Nat → String)
    (reqs : List LinkRequest) : List LinkRequest × List (String × String) :=
  reconcileAux live fresh 0 reqs

/-! ### The teleport command

The repository's README documents a `/tp` command, but src/main.js routes
only the `link` command (line 175): the `/tp` handler is not part of the
sources provided, so it is modelled from the spec below. -/

/-- Outcome of a teleport request: refusal, missing link, or the emitted
in-game command string. -/
inductive TpOutcome where
  | forbidden
  | notLinked
  | emitted (cmd : String)
deriving DecidableEq, Repr, Inhabited

/-- Modelled from the spec: `isIgnLinkedTo(accountId, ign)` is missing from
src/ (it belongs to the absent `/tp` handler); per spec section 4.2 it is a
pure lookup against the account collection with case-sensitive exact
string match. -/
def isIgnLinkedTo (accounts : List (String × AccountEntry))
    (accountId g : String) : Bool :=
  match getAccount accounts accountId with
  | none => false
  | some e => e.igns.contains g

/-- Modelled from the spec: the `/tp` handler is missing from src/; per
spec section 4.4, a non-admin caller may only target itself (`Forbidden`
otherwise), the target must have the ign linked (`NotLinked` otherwise),
and on success the fixed-format string `.tp instapearl <ign>` is emitted. -/
def requestTeleport (accounts : List (String × AccountEntry))
    (callerId : String) (callerIsAdmin : Bool) (targetAccountId g : String) :
    TpOutcome :=
  if callerIsAdmin = false ∧ targetAccountId ≠ callerId then .forbidden
  else if isIgnLinkedTo accounts targetAccountId g = false then .notLinked
  else .emitted (".tp instapearl " ++ g)

/-! ### Button custom ids (src/main.js lines 206-207, 220-222)

Buttons carry `link_accept_<id>` / `link_reject_<id>`; the handler splits
the custom id on underscores and reads elements 1 and 2. -/

/-- JavaScript `str.split(sep)` for a single-character separator. -/
def jsSplit (sep : Char) : List Char → List (List Char)
  | [] => [[]]
  | c :: cs =>
    if c = sep then [] :: jsSplit sep cs
    else
      match jsSplit sep cs with
      | [] => [[c]]
      | t :: ts => (c :: t) :: ts

/-- Custom id of the approve button (src/main.js line 206). -/
def acceptCustomId (rid : String) : String := "link_accept_" ++ rid

/-- Custom id of the reject button (src/main.js line 207). -/
def rejectCustomId (rid : String) : String := "link_reject_" ++ rid

/-- The destructuring `const [ , action, reqId ] = cid.split('_')`
(src/main.js line 222): elements 1 and 2 of the split. -/
def parseCustomId (cid : String) : Option String × Option String :=
  let parts := (jsSplit '_' cid.data).map String.mk
  (parts[1]?, parts[2]?)

/-! ### Derived predicates and sample data -/

/-- The claim's characterization of an unauthorized resolver: with a
non-empty configured admin role set, none of the member's roles is in it;
with an empty set, the member lacks both Administrator and ManageGuild;
an unresolvable member is always unauthorized. -/
def resolverUnauthorized (adminRoleIds : List String) :
    Option GuildMember → Prop
  | none => True
  | some m =>
    if adminRoleIds = [] then
      m.isAdministrator = false ∧ m.hasManageGuild = false
    else ∀ r ∈ m.roleIds, r ∉ adminRoleIds

/-- Sample user A for concrete runs. -/
def userA : UserRef := ⟨"A", "alice", "0001"⟩

/-- Sample user B for concrete runs. -/
def userB : UserRef := ⟨"B", "bob", "0002"⟩

/-- Sample configured admin role set. -/
def adminRoleCfg : List String := ["adminrole"]

/-- Sample member holding the configured admin role. -/
def adminMember : Option GuildMember := some ⟨["adminrole"], false, false⟩

/-- Sample member holding no admin role and no admin permission. -/
def plainMember : Option GuildMember := some ⟨["other"], false, false⟩

/-- Fresh message ids for reconciliation runs. -/
def sampleFresh : Nat → String := fun k => String.mk ('f' :: natDigits k)

/-- A pending request that was never rendered (`messageId` null). -/
def reqPendNoMsg : LinkRequest := mkRequest 10 1 userA userA "Notch"

/-- A pending request whose rendered message is still live. -/
def reqPendLive : LinkRequest :=
  { mkRequest 20 2 userB userB "Steve" with messageId := some "m2" }

/-- An already-approved request, not eligible for re-rendering. -/
def reqDone : LinkRequest :=
  { mkRequest 30 3 userA userA "Olde" with status := .approved }

/-- Sample persisted pending collection for reconciliation runs. -/
def sampleReqs : List LinkRequest := [reqPendNoMsg, reqPendLive, reqDone]

/-- Two-request state in which the same ign was requested for two distinct
accounts, first for B and then for A. -/
def twoTargetState : BotState :=
  (submitLink ((submitLink ⟨[], []⟩ 1000 1 userB (some userB) "Notch").1)
    1000 2 userA (some userA) "Notch").1

/-- Two-request state in which the same ign was requested twice for the
same account A, via two distinct requests. -/
def twoSameState : BotState :=
  (submitLink ((submitLink ⟨[], []⟩ 1000 1 userA none "Notch").1)
    1000 2 userB (some userA) "Notch").1

/-- Sample account collection for teleport runs: U has Notch linked. -/
def accSample : List (String × AccountEntry) :=
  [("U", ⟨"u#0001", "U", ["Notch"]⟩)]

/-! ### Helper lemmas -/

theorem natDigitsAux_congr (f₁ : Nat) :
    ∀ f₂ n, n < f₁ → n < f₂ → natDigitsAux f₁ n = natDigitsAux f₂ n := by
  induction f₁ with
  | zero => omega
  | succ f ih =>
    intro f₂ n h₁ h₂
    rcases Nat.exists_eq_succ_of_ne_zero (n := f₂) (by omega) with ⟨g, hg⟩
    subst hg
    by_cases h10 : n < 10
    · simp [natDigitsAux, h10]
    · have hdiv : n / 10 < n := Nat.div_lt_self (by omega) (by omega)
      simp only [natDigitsAux, h10, if_false]
      rw [ih g (n / 10) (by omega) (by omega)]

theorem natDigitsAux_fuel (fuel n : Nat) (h : n < fuel) :
    natDigitsAux fuel n = natDigits n :=
  natDigitsAux_congr fuel (n + 1) n h (Nat.lt_succ_self n)

theorem natDigitsAux_succ (f n : Nat) :
    natDigitsAux (f + 1) n =
      if n < 10 then [Nat.digitChar n]
      else natDigitsAux f (n / 10) ++ [Nat.digitChar (n % 10)] := rfl

theorem natDigits_unfold (n : Nat) :
    natDigits n =
      if n < 10 then [Nat.digitChar n]
      else natDigits (n / 10) ++ [Nat.digitChar (n % 10)] := by
  by_cases h10 : n < 10
  · simp [natDigits, natDigitsAux, h10]
  · have hdiv : n / 10 < n := Nat.div_lt_self (by omega) (by omega)
    rw [natDigits, natDigitsAux_succ, if_neg h10, if_neg h10,
      natDigitsAux_fuel n (n / 10) hdiv]

theorem digitChar_toNat {d : Nat} (h : d < 10) :
    (Nat.digitChar d).toNat = 48 + d := by
  revert h
  revert d
  decide

/-- Every character produced by `natDigits` is a decimal digit. -/
theorem natDigits_mem_range {n : Nat} {c : Char} (hc : c ∈ natDigits n) :
    48 ≤ c.toNat ∧ c.toNat ≤ 57 := by
  induction n using Nat.strong_induction_on with
  | _ n ih =>
    rw [natDigits_unfold] at hc
    by_cases h10 : n < 10
    · simp [h10] at hc
      subst hc
      have := digitChar_toNat h10
      omega
    · simp [h10] at hc
      rcases hc with hc | hc
      · exact ih (n / 10) (Nat.div_lt_self (by omega) (by omega)) hc
      · subst hc
        have := digitChar_toNat (Nat.mod_lt n (by omega : 0 < 10))
        omega

theorem natDigits_ne_char {n : Nat} {c : Char} (hc : c ∈ natDigits n)
    (h45 : c.toNat < 48 ∨ 57 < c.toNat) : False := by
  have := natDigits_mem_range hc
  omega

theorem digitsVal_append_singleton (cs : List Char) (c : Char) :
    digitsVal (cs ++ [c]) = 10 * digitsVal cs + (c.toNat - 48) := by
  simp [digitsVal, List.foldl_append]

theorem digitsVal_natDigits (n : Nat) : digitsVal (natDigits n) = n := by
  induction n using Nat.strong_induction_on with
  | _ n ih =>
    rw [natDigits_unfold]
    by_cases h10 : n < 10
    · simp [h10, digitsVal, digitChar_toNat h10]
    · simp only [h10, if_false, digitsVal_append_singleton]
      rw [ih (n / 10) (Nat.div_lt_self (by omega) (by omega))]
      have := digitChar_toNat (Nat.mod_lt n (by omega : 0 < 10))
      omega

theorem natDigits_injective {a b : Nat} (h : natDigits a = natDigits b) :
    a = b := by
  have := digitsVal_natDigits a
  rw [h, digitsVal_natDigits] at this
  omega

/-- Splitting a concatenation at a separator absent from both prefixes. -/
theorem append_sep_cancel {sep : Char} :
    ∀ {xs₁ xs₂ ys₁ ys₂ : List Char}, sep ∉ xs₁ → sep ∉ xs₂ →
      xs₁ ++ sep :: ys₁ = xs₂ ++ sep :: ys₂ → xs₁ = xs₂ ∧ ys₁ = ys₂ := by
  intro xs₁
  induction xs₁ with
  | nil =>
    intro xs₂ ys₁ ys₂ _ h2 heq
    cases xs₂ with
    | nil => simpa using heq
    | cons b bs =>
      simp at heq
      exact absurd (heq.1 ▸ List.mem_cons_self b bs) h2
  | cons a as ih =>
    intro xs₂ ys₁ ys₂ h1 h2 heq
    cases xs₂ with
    | nil =>
      simp at heq
      exact absurd (heq.1 ▸ List.mem_cons_self a as) h1
    | cons b bs =>
      simp at heq
      obtain ⟨hab, htail⟩ := heq
      have := ih (by simp at h1; exact h1.2) (by simp at h2; exact h2.2) htail
      exact ⟨by simp [hab, this.1], this.2⟩

theorem hyphen_not_mem_natDigits (n : Nat) : '-' ∉ natDigits n := by
  intro h
  exact natDigits_ne_char h (by decide)

theorem underscore_not_mem_natDigits (n : Nat) : '_' ∉ natDigits n := by
  intro h
  exact natDigits_ne_char h (by decide)

theorem reqId_inj {t₁ r₁ t₂ r₂ : Nat} (h : reqId t₁ r₁ = reqId t₂ r₂) :
    t₁ = t₂ ∧ r₁ = r₂ := by
  have hdata : natDigits t₁ ++ '-' :: natDigits r₁
      = natDigits t₂ ++ '-' :: natDigits r₂ := by
    have := congrArg String.data h
    simpa [reqId] using this
  have := append_sep_cancel (hyphen_not_mem_natDigits t₁)
    (hyphen_not_mem_natDigits t₂) hdata
  exact ⟨natDigits_injective this.1, natDigits_injective this.2⟩

theorem mk_data (s : String) : String.mk s.data = s := by
  cases s
  rfl

theorem find?_updateFirst {p : α → Bool} {f : α → α} :
    ∀ {l : List α} {x : α}, l.find? p = some x → p (f x) = true →
      (updateFirst p f l).find? p = some (f x) := by
  intro l
  induction l with
  | nil => intro x h; simp at h
  | cons a as ih =>
    intro x h hf
    by_cases hpa : p a = true
    · rw [List.find?_cons_of_pos _ hpa] at h
      cases h
      simp only [updateFirst, hpa, if_true]
      exact List.find?_cons_of_pos _ hf
    · rw [List.find?_cons_of_neg _ (by simpa using hpa)] at h
      simp only [updateFirst, hpa, if_false, Bool.false_eq_true]
      rw [List.find?_cons_of_neg _ (by simpa using hpa)]
      exact ih h hf

theorem updateFirst_length {p : α → Bool} {f : α → α} :
    ∀ l : List α, (updateFirst p f l).length = l.length := by
  intro l
  induction l with
  | nil => rfl
  | cons a as ih =>
    by_cases hpa : p a = true <;> simp [updateFirst, hpa, ih]

theorem upsertIgns_eq (igns : List String) (g : String) :
    upsertIgns igns g = if g ∈ igns then igns else igns ++ [g] := by
  unfold upsertIgns
  by_cases hm : g ∈ igns
  · rw [if_pos (List.elem_iff.mpr hm), if_pos hm]
  · rw [if_neg, if_neg hm]
    exact fun hc => hm (List.elem_iff.mp hc)

theorem upsertIgns_nodup {igns : List String} {g : String}
    (h : igns.Nodup) : (upsertIgns igns g).Nodup := by
  rw [upsertIgns_eq]
  by_cases hm : g ∈ igns
  · simp [hm, h]
  · simp only [hm, if_false]
    refine h.append (List.nodup_singleton g) ?_
    intro a ha hag
    simp at hag
    subst hag
    exact hm ha

theorem upsertIgns_count_one {igns : List String} {g : String}
    (h : igns.Nodup) : (upsertIgns igns g).count g = 1 := by
  rw [upsertIgns_eq]
  by_cases hm : g ∈ igns
  · simp only [hm, if_true]
    have h1 : List.count g igns ≤ 1 := List.nodup_iff_count_le_one.mp h g
    have h2 : 0 < List.count g igns := List.count_pos_iff.mpr hm
    omega
  · simp only [hm, if_false, List.count_append]
    rw [List.count_eq_zero_of_not_mem hm]
    simp [List.count_singleton]

theorem upsertIgns_contains_self (igns : List String) (g : String) :
    (upsertIgns igns g).contains g = true := by
  rw [upsertIgns_eq]
  by_cases hm : g ∈ igns
  · simp only [hm, if_true]
    exact List.elem_iff.mpr hm
  · simp only [hm, if_false]
    exact List.elem_iff.mpr (by simp)

theorem getAccount_setAccount_self (accounts : List (String × AccountEntry))
    (k : String) (v : AccountEntry) :
    getAccount (setAccount accounts k v) k = some v := by
  induction accounts with
  | nil => simp [setAccount, getAccount]
  | cons kv rest ih =>
    by_cases hk : kv.1 = k
    · simp [setAccount, hk, getAccount]
    · simp only [setAccount, hk, if_false]
      simp only [getAccount, List.find?_cons]
      have : (kv.1 == k) = false := by simp [hk]
      simp only [this]
      exact ih

theorem getAccount_setAccount_ne (accounts : List (String × AccountEntry))
    (k k' : String) (v : AccountEntry) (h : k' ≠ k) :
    getAccount (setAccount accounts k v) k' = getAccount accounts k' := by
  induction accounts with
  | nil =>
    simp only [setAccount, getAccount, List.find?_cons, List.find?_nil]
    have : (k == k') = false := by simp; exact fun he => h he.symm
    simp [this]
  | cons kv rest ih =>
    by_cases hk : kv.1 = k
    · simp only [setAccount, hk, if_true]
      simp only [getAccount, List.find?_cons]
      have h1 : (k == k') = false := by simp; exact fun he => h he.symm
      have h2 : (kv.1 == k') = false := by simp [hk]; exact fun he => h he.symm
      simp [h1, h2]
    · simp only [setAccount, hk, if_false]
      simp only [getAccount, List.find?_cons] at ih ⊢
      by_cases hkv : (kv.1 == k') = true
      · simp [hkv]
      · simp only [Bool.not_eq_true] at hkv
        simp only [hkv]
        exact ih

theorem mem_setAccount {accounts : List (String × AccountEntry)}
    {k : String} {v : AccountEntry} :
    ∀ kv ∈ setAccount accounts k v, kv = (k, v) ∨ kv ∈ accounts := by
  induction accounts with
  | nil => intro kv h; simp [setAccount] at h; simp [h]
  | cons hd rest ih =>
    intro kv h
    by_cases hk : hd.1 = k
    · simp only [setAccount, hk, if_true] at h
      rcases List.mem_cons.mp h with h | h
      · simp [h]
      · simp [h]
    · simp only [setAccount, hk, if_false] at h
      rcases List.mem_cons.mp h with h | h
      · simp [h]
      · rcases ih kv h with h | h
        · simp [h]
        · simp [h]

/-- Invariant from the spec (section 3): no account's igns list contains a
duplicate entry. -/
def accountsNodup (accounts : List (String × AccountEntry)) : Prop :=
  ∀ kv ∈ accounts, kv.2.igns.Nodup

theorem getAccount_nodup {accounts : List (String × AccountEntry)}
    {k : String} {e : AccountEntry} (hnd : accountsNodup accounts)
    (h : getAccount accounts k = some e) : e.igns.Nodup := by
  unfold getAccount at h
  rcases hfind : accounts.find? (fun kv => kv.1 == k) with _ | kv
  · rw [hfind] at h; simp at h
  · rw [hfind] at h
    simp at h
    have := List.mem_of_find?_eq_some hfind
    rw [← h]
    exact hnd kv this

theorem upsertAccount_nodup {accounts : List (String × AccountEntry)}
    {targetId targetTag g : String} (hnd : accountsNodup accounts) :
    accountsNodup (upsertAccount accounts targetId targetTag g) := by
  intro kv hkv
  unfold upsertAccount at hkv
  rcases mem_setAccount kv hkv with h | h
  · subst h
    rcases hget : getAccount accounts targetId with _ | e
    · simp only [hget, Option.getD_none]
      exact upsertIgns_nodup List.nodup_nil
    · simp only [hget, Option.getD_some]
      exact upsertIgns_nodup (getAccount_nodup hnd hget)
  · exact hnd kv h

theorem jsSplit_no_sep {sep : Char} :
    ∀ {xs : List Char}, sep ∉ xs → jsSplit sep xs = [xs] := by
  intro xs
  induction xs with
  | nil => intro _; rfl
  | cons c cs ih =>
    intro h
    have hc : ¬ c = sep := fun he => h (he ▸ List.mem_cons_self c cs)
    have hcs : sep ∉ cs := fun hm => h (List.mem_cons_of_mem c hm)
    simp only [jsSplit, hc, if_false, ih hcs]

theorem jsSplit_sep_append {sep : Char} :
    ∀ {xs rest : List Char}, sep ∉ xs →
      jsSplit sep (xs ++ sep :: rest) = xs :: jsSplit sep rest := by
  intro xs
  induction xs with
  | nil => intro rest _; simp [jsSplit]
  | cons c cs ih =>
    intro rest h
    have hc : ¬ c = sep := fun he => h (he ▸ List.mem_cons_self c cs)
    have hcs : sep ∉ cs := fun hm => h (List.mem_cons_of_mem c hm)
    rw [List.cons_append]
    show jsSplit sep (c :: (cs ++ sep :: rest)) = (c :: cs) :: jsSplit sep rest
    rw [jsSplit, if_neg hc, ih hcs]

theorem resolveStep_eq_success (cfg : List String)
    (mem : Option GuildMember) (res : String) (now : Nat) (act rid : String)
    (st : BotState) (req : LinkRequest)
    (hfind : st.pending.find? (fun q => q.id == rid) = some req)
    (hp : req.status = .pending) (hauth : hasAdmin cfg mem = true) :
    resolveStep cfg mem res now act rid st =
      (.resolved (resolvedReq req res now act),
        { pending := updateFirst (fun q => q.id == rid)
            (fun q => resolvedReq q res now act) st.pending,
          accounts := if act = "accept"
            then upsertAccount st.accounts (effectiveTarget req)
              req.targetTag req.ign
            else st.accounts }) := by
  simp only [resolveStep, hfind]
  rw [if_neg (by simp [hp]), if_neg (by simp [hauth])]
  by_cases hacc : act = "accept" <;> simp [hacc]

theorem resolvedReq_status_ne_pending (req : LinkRequest) (res : String)
    (now : Nat) (act : String) :
    (resolvedReq req res now act).status ≠ .pending := by
  simp only [resolvedReq]
  by_cases hacc : act = "accept" <;> simp [hacc]

theorem hasAdmin_eq_false {cfg : List String} {mem : Option GuildMember}
    (h : resolverUnauthorized cfg mem) : hasAdmin cfg mem = false := by
  cases mem with
  | none => rfl
  | some m =>
    simp only [resolverUnauthorized] at h
    simp only [hasAdmin]
    by_cases hc : cfg = []
    · subst hc
      rw [if_pos rfl] at h
      rw [if_neg (by simp)]
      simp [h.1, h.2]
    · have hlen : cfg.length > 0 := List.length_pos.mpr hc
      rw [if_neg hc] at h
      rw [if_pos hlen]
      rw [List.any_eq_false]
      intro r hr
      intro hcon
      exact h r hr (List.elem_iff.mp hcon)

/-! ### Claim theorems -/

/-- Claim C1: once a resolution of a link request has succeeded, any later
resolution attempt for the same request id fails with AlreadyResolved
carrying the prior terminal status and leaves the request record and both
collections unchanged; hence of two resolve calls on the same request,
exactly one succeeds and the other is told AlreadyResolved. -/
theorem resolve_second_attempt_already_resolved
    (cfg₁ : List String) (mem₁ : Option GuildMember) (res₁ : String)
    (now₁ : Nat) (act₁ rid : String) (st : BotState) (req : LinkRequest)
    (hfind : st.pending.find? (fun q => q.id == rid) = some req)
    (hp : req.status = .pending)
    (hauth : hasAdmin cfg₁ mem₁ = true) :
    (resolveStep cfg₁ mem₁ res₁ now₁ act₁ rid st).1
        = .resolved (resolvedReq req res₁ now₁ act₁)
    ∧ (resolvedReq req res₁ now₁ act₁).status ≠ .pending
    ∧ ∀ (cfg₂ : List String) (mem₂ : Option GuildMember) (res₂ : String)
        (now₂ : Nat) (act₂ : String),
        resolveStep cfg₂ mem₂ res₂ now₂ act₂ rid
            (resolveStep cfg₁ mem₁ res₁ now₁ act₁ rid st).2
          = (.alreadyResolved (resolvedReq req res₁ now₁ act₁).status,
              (resolveStep cfg₁ mem₁ res₁ now₁ act₁ rid st).2) := by
  have hstep := resolveStep_eq_success cfg₁ mem₁ res₁ now₁ act₁ rid st req
    hfind hp hauth
  have hterm := resolvedReq_status_ne_pending req res₁ now₁ act₁
  refine ⟨by rw [hstep], hterm, ?_⟩
  intro cfg₂ mem₂ res₂ now₂ act₂
  have hpid := List.find?_some hfind
  have hfind₂ : (resolveStep cfg₁ mem₁ res₁ now₁ act₁ rid st).2.pending.find?
      (fun q => q.id == rid) = some (resolvedReq req res₁ now₁ act₁) := by
    rw [hstep]
    exact find?_updateFirst hfind hpid
  generalize (resolveStep cfg₁ mem₁ res₁ now₁ act₁ rid st).2 = st'
    at hfind₂ ⊢
  simp only [resolveStep, hfind₂]
  rw [if_pos hterm]

/-- Claim C1 witness: a concrete pending request is approved once; the
second attempt, by a different resolver with the opposite decision, is
refused with the approved status and changes nothing. -/
theorem resolve_second_attempt_already_resolved_witness :
    (resolveStep adminRoleCfg adminMember "adm" 2000 "accept" "1000-1"
        (submitLink ⟨[], []⟩ 1000 1 userA none "Notch").1).1
      = .resolved (resolvedReq (mkRequest 1000 1 userA userA "Notch")
          "adm" 2000 "accept")
    ∧ resolveStep adminRoleCfg adminMember "adm2" 2001 "reject" "1000-1"
          (resolveStep adminRoleCfg adminMember "adm" 2000 "accept" "1000-1"
            (submitLink ⟨[], []⟩ 1000 1 userA none "Notch").1).2
        = (.alreadyResolved (resolvedReq (mkRequest 1000 1 userA userA
              "Notch") "adm" 2000 "accept").status,
            (resolveStep adminRoleCfg adminMember "adm" 2000 "accept"
              "1000-1" (submitLink ⟨[], []⟩ 1000 1 userA none "Notch").1).2) := by
  have h := resolve_second_attempt_already_resolved adminRoleCfg adminMember
    "adm" 2000 "accept" "1000-1"
    (submitLink ⟨[], []⟩ 1000 1 userA none "Notch").1
    (mkRequest 1000 1 userA userA "Notch")
    (by decide) (by decide) (by decide)
  exact ⟨h.1, h.2.2 adminRoleCfg adminMember "adm2" 2001 "reject"⟩

/-- Claim C2 counterexample: a whitespace-only ign is not rejected; the
submit path trims it to the empty string and still appends a persisted
pending record, so no ValidationError path exists in the code. -/
theorem submit_accepts_blank_ign_cex :
    ((submitLink ⟨[], []⟩ 1000 5 userA none "   ").1.pending
        = [(submitLink ⟨[], []⟩ 1000 5 userA none "   ").2])
    ∧ (submitLink ⟨[], []⟩ 1000 5 userA none "   ").2.ign = ""
    ∧ (submitLink ⟨[], []⟩ 1000 5 userA none "   ").2.status = .pending := by
  decide

/-- Claim C2 amended: the submit path performs no ign validation; for every
raw ign (empty or not after trimming) it appends exactly one new pending
record whose ign is the trimmed input, and leaves accounts untouched. -/
theorem submit_always_appends_trimmed (st : BotState) (now rand : Nat)
    (invoker : UserRef) (account : Option UserRef) (rawIgn : String) :
    (submitLink st now rand invoker account rawIgn).1.pending
        = st.pending ++ [(submitLink st now rand invoker account rawIgn).2]
    ∧ (submitLink st now rand invoker account rawIgn).2.ign = jsTrim rawIgn
    ∧ (submitLink st now rand invoker account rawIgn).2.status = .pending
    ∧ (submitLink st now rand invoker account rawIgn).1.accounts
        = st.accounts :=
  ⟨rfl, rfl, rfl, rfl⟩

/-- Claim C3 counterexample: two distinct submissions in the same
millisecond drawing the same random component produce the same request id,
so the store holds duplicate ids. -/
theorem same_millisecond_ids_collide_cex :
    ((submitLink ((submitLink ⟨[], []⟩ 1000 5 userA none "Notch").1)
          1000 5 userB none "Steve").1.pending.map LinkRequest.id
        = [reqId 1000 5, reqId 1000 5])
    ∧ ¬ ((submitLink ((submitLink ⟨[], []⟩ 1000 5 userA none "Notch").1)
          1000 5 userB none "Steve").1.pending.map LinkRequest.id).Nodup
    ∧ ((submitLink ((submitLink ⟨[], []⟩ 1000 5 userA none "Notch").1)
          1000 5 userB none "Steve").1.pending.map LinkRequest.requesterId
        = ["A", "B"]) := by
  decide

/-- Claim C3 amended: id generation is injective in its inputs — two
createRequest calls whose millisecond timestamps or random components
differ get different ids — but calls agreeing on both collide, so ids are
not unconditionally unique. -/
theorem distinct_inputs_distinct_ids (t₁ r₁ t₂ r₂ : Nat)
    (h : t₁ ≠ t₂ ∨ r₁ ≠ r₂) : reqId t₁ r₁ ≠ reqId t₂ r₂ := by
  intro he
  rcases reqId_inj he with ⟨ht, hr⟩
  rcases h with h | h
  · exact h ht
  · exact h hr

/-- Claim C3 amended witness: ids from the same millisecond with different
random draws differ. -/
theorem distinct_inputs_distinct_ids_witness :
    reqId 1000 5 ≠ reqId 1000 6 :=
  distinct_inputs_distinct_ids 1000 5 1000 6 (Or.inr (by decide))

/-- Claim C4: a non-admin teleport call for a different target fails with
Forbidden and emits nothing; a permitted call whose target lacks the exact
ign fails with NotLinked; otherwise the fixed-format string
`.tp instapearl <ign>` is emitted.  The `/tp` handler is absent from src/
and is modelled from the spec. -/
theorem request_teleport_behavior (accounts : List (String × AccountEntry))
    (callerId : String) (callerIsAdmin : Bool) (targetAccountId g : String) :
    (callerIsAdmin = false → targetAccountId ≠ callerId →
      requestTeleport accounts callerId callerIsAdmin targetAccountId g
        = .forbidden)
    ∧ ((callerIsAdmin = true ∨ targetAccountId = callerId) →
        isIgnLinkedTo accounts targetAccountId g = false →
        requestTeleport accounts callerId callerIsAdmin targetAccountId g
          = .notLinked)
    ∧ ((callerIsAdmin = true ∨ targetAccountId = callerId) →
        isIgnLinkedTo accounts targetAccountId g = true →
        requestTeleport accounts callerId callerIsAdmin targetAccountId g
          = .emitted (".tp instapearl " ++ g)) := by
  refine ⟨?_, ?_, ?_⟩
  · intro ha ht
    unfold requestTeleport
    rw [if_pos ⟨ha, ht⟩]
  · intro hok hlink
    unfold requestTeleport
    rw [if_neg, if_pos hlink]
    rintro ⟨h1, h2⟩
    rcases hok with h | h
    · rw [h] at h1
      exact absurd h1 (by decide)
    · exact h2 h
  · intro hok hlink
    unfold requestTeleport
    rw [if_neg, if_neg (by simp [hlink])]
    rintro ⟨h1, h2⟩
    rcases hok with h | h
    · rw [h] at h1
      exact absurd h1 (by decide)
    · exact h2 h

/-- Claim C4 witness: concrete refusal, missing-link failure, and emission
for a linked account. -/
theorem request_teleport_behavior_witness :
    requestTeleport accSample "U" false "V" "Notch" = .forbidden
    ∧ requestTeleport accSample "V" false "V" "Notch" = .notLinked
    ∧ requestTeleport accSample "U" false "U" "Notch"
        = .emitted ".tp instapearl Notch" := by
  have h1 := (request_teleport_behavior accSample "U" false "V" "Notch").1
    rfl (by decide)
  have h2 := (request_teleport_behavior accSample "V" false "V" "Notch").2.1
    (Or.inr rfl) (by decide)
  have h3 := (request_teleport_behavior accSample "U" false "U" "Notch").2.2
    (Or.inr rfl) (by decide)
  exact ⟨h1, h2, h3.trans (by decide)⟩

/-- Claim C5: every resolve operation preserves the no-duplicate invariant
of each account's igns list, and a successful approval leaves the approved
ign with exactly one occurrence in the target's list — also when the same
ign is approved again via a second request. -/
theorem resolve_preserves_igns_nodup (cfg : List String)
    (mem : Option GuildMember) (res : String) (now : Nat) (act rid : String)
    (st : BotState) (hnd : accountsNodup st.accounts) :
    accountsNodup (resolveStep cfg mem res now act rid st).2.accounts
    ∧ ∀ req, st.pending.find? (fun q => q.id == rid) = some req →
        req.status = .pending → hasAdmin cfg mem = true → act = "accept" →
        ∃ e, getAccount (resolveStep cfg mem res now act rid st).2.accounts
              (effectiveTarget req) = some e
          ∧ e.igns.count req.ign = 1 := by
  constructor
  · rcases hfind : st.pending.find? (fun q => q.id == rid) with _ | req
    · simpa [resolveStep, hfind] using hnd
    · by_cases hp : req.status = .pending
      · by_cases hauth : hasAdmin cfg mem = true
        · rw [resolveStep_eq_success cfg mem res now act rid st req hfind
            hp hauth]
          by_cases hacc : act = "accept"
          · simpa [hacc] using upsertAccount_nodup hnd
          · simpa [hacc] using hnd
        · have hfa : hasAdmin cfg mem = false := by
            cases h : hasAdmin cfg mem
            · rfl
            · exact absurd h hauth
          simp only [resolveStep, hfind]
          rw [if_neg (by simp [hp]), if_pos hfa]
          exact hnd
      · simp only [resolveStep, hfind]
        rw [if_pos hp]
        exact hnd
  · intro req hfind hp hauth hacc
    subst hacc
    rw [resolveStep_eq_success cfg mem res now "accept" rid st req hfind
      hp hauth]
    dsimp only
    rw [if_pos rfl]
    unfold upsertAccount
    refine ⟨_, getAccount_setAccount_self _ _ _, ?_⟩
    apply upsertIgns_count_one
    rcases hget : getAccount st.accounts (effectiveTarget req) with _ | e
    · simp [hget]
    · simpa [hget] using getAccount_nodup hnd hget

/-- Claim C5 witness: approving the same ign for account A a second time,
via a distinct request, leaves exactly one occurrence in the list. -/
theorem resolve_preserves_igns_nodup_witness :
    accountsNodup (resolveStep adminRoleCfg adminMember "adm2" 2001 "accept"
        "1000-2" (resolveStep adminRoleCfg adminMember "adm" 2000 "accept"
          "1000-1" twoSameState).2).2.accounts
    ∧ (getAccount (resolveStep adminRoleCfg adminMember "adm2" 2001 "accept"
          "1000-2" (resolveStep adminRoleCfg adminMember "adm" 2000 "accept"
            "1000-1" twoSameState).2).2.accounts "A").map
        (fun e => e.igns.count "Notch") = some 1 := by
  have h := resolve_preserves_igns_nodup adminRoleCfg adminMember "adm2"
    2001 "accept" "1000-2"
    (resolveStep adminRoleCfg adminMember "adm" 2000 "accept" "1000-1"
      twoSameState).2
    (by unfold accountsNodup; decide)
  refine ⟨h.1, ?_⟩
  obtain ⟨e, he, hc⟩ := h.2 (mkRequest 1000 2 userB userA "Notch")
    (by decide) (by decide) (by decide) rfl
  have he' : getAccount (resolveStep adminRoleCfg adminMember "adm2" 2001
      "accept" "1000-2" (resolveStep adminRoleCfg adminMember "adm" 2000
        "accept" "1000-1" twoSameState).2).2.accounts "A" = some e := he
  rw [he']
  have hign : (mkRequest 1000 2 userB userA "Notch").ign = "Notch" := by
    decide
  rw [hign] at hc
  simp [hc]

/-- Claim C6: a resolution attempt on a pending request by a resolver who
is not authorized (no configured admin role when the set is non-empty, no
Administrator/ManageGuild permission when it is empty) is refused with
Unauthorized and leaves the whole state, hence the pending request and
both collections, unchanged. -/
theorem resolve_unauthorized_no_mutation (cfg : List String)
    (mem : Option GuildMember) (res : String) (now : Nat) (act rid : String)
    (st : BotState) (req : LinkRequest)
    (hfind : st.pending.find? (fun q => q.id == rid) = some req)
    (hp : req.status = .pending)
    (hun : resolverUnauthorized cfg mem) :
    resolveStep cfg mem res now act rid st = (.unauthorized, st) := by
  simp only [resolveStep, hfind]
  rw [if_neg (by simp [hp]), if_pos (hasAdmin_eq_false hun)]

/-- Claim C6 witness: a member without the configured admin role is refused
on a concrete pending request and the state is unchanged. -/
theorem resolve_unauthorized_no_mutation_witness :
    resolveStep adminRoleCfg plainMember "usr" 2000 "accept" "1000-1"
        (submitLink ⟨[], []⟩ 1000 1 userA none "Notch").1
      = (.unauthorized, (submitLink ⟨[], []⟩ 1000 1 userA none "Notch").1) :=
  resolve_unauthorized_no_mutation adminRoleCfg plainMember "usr" 2000
    "accept" "1000-1" (submitLink ⟨[], []⟩ 1000 1 userA none "Notch").1
    (mkRequest 1000 1 userA userA "Notch") (by decide) (by decide)
    (by simp [resolverUnauthorized, plainMember, adminRoleCfg])

/-- Claim C7 counterexample: the code does not make an ign exclusive to one
account.  Starting from a reachable state in which Notch was first approved
for account B, a later successful approval of Notch for account A leaves
the lookup true for B as well, not false as the claim requires. -/
theorem approval_keeps_other_account_link_cex :
    (resolveStep adminRoleCfg adminMember "adm" 2001 "accept" "1000-2"
        (resolveStep adminRoleCfg adminMember "adm" 2000 "accept" "1000-1"
          twoTargetState).2).1
      = .resolved (resolvedReq (mkRequest 1000 2 userA userA "Notch")
          "adm" 2001 "accept")
    ∧ isIgnLinkedTo (resolveStep adminRoleCfg adminMember "adm" 2001
          "accept" "1000-2" (resolveStep adminRoleCfg adminMember "adm" 2000
            "accept" "1000-1" twoTargetState).2).2.accounts "A" "Notch"
        = true
    ∧ isIgnLinkedTo (resolveStep adminRoleCfg adminMember "adm" 2001
          "accept" "1000-2" (resolveStep adminRoleCfg adminMember "adm" 2000
            "accept" "1000-1" twoTargetState).2).2.accounts "B" "Notch"
        = true
    ∧ ("B" : String) ≠ "A" := by
  decide

/-- Claim C7 amended: immediately after a successful approval, the lookup
returns true for the target account and the approved ign (case-sensitive
exact match), and for every other account the lookup result is exactly what
it was before the approval (in particular false whenever the ign was not
already linked to that account). -/
theorem approve_links_target_only (cfg : List String)
    (mem : Option GuildMember) (res : String) (now : Nat) (rid : String)
    (st : BotState) (req : LinkRequest)
    (hfind : st.pending.find? (fun q => q.id == rid) = some req)
    (hp : req.status = .pending)
    (hauth : hasAdmin cfg mem = true) :
    isIgnLinkedTo (resolveStep cfg mem res now "accept" rid st).2.accounts
        (effectiveTarget req) req.ign = true
    ∧ ∀ b g, b ≠ effectiveTarget req →
        isIgnLinkedTo
            (resolveStep cfg mem res now "accept" rid st).2.accounts b g
          = isIgnLinkedTo st.accounts b g := by
  rw [resolveStep_eq_success cfg mem res now "accept" rid st req hfind hp
    hauth]
  dsimp only
  rw [if_pos rfl]
  constructor
  · unfold isIgnLinkedTo upsertAccount
    rw [getAccount_setAccount_self]
    exact upsertIgns_contains_self _ _
  · intro b g hb
    unfold isIgnLinkedTo upsertAccount
    rw [getAccount_setAccount_ne _ _ _ _ hb]

/-- Claim C7 amended witness: a concrete approval makes the lookup true for
the target and leaves another account's lookup unchanged. -/
theorem approve_links_target_only_witness :
    isIgnLinkedTo (resolveStep adminRoleCfg adminMember "adm" 2000 "accept"
        "1000-1" (submitLink ⟨[], []⟩ 1000 1 userA none "Notch").1).2.accounts
        "A" "Notch" = true
    ∧ isIgnLinkedTo (resolveStep adminRoleCfg adminMember "adm" 2000
          "accept" "1000-1"
          (submitLink ⟨[], []⟩ 1000 1 userA none "Notch").1).2.accounts
        "B" "Notch"
      = isIgnLinkedTo
          (submitLink ⟨[], []⟩ 1000 1 userA none "Notch").1.accounts
          "B" "Notch" := by
  have h := approve_links_target_only adminRoleCfg adminMember "adm" 2000
    "1000-1" (submitLink ⟨[], []⟩ 1000 1 userA none "Notch").1
    (mkRequest 1000 1 userA userA "Notch") (by decide) (by decide)
    (by decide)
  exact ⟨h.1, h.2 "B" "Notch" (by decide)⟩

/-- Claim C8 counterexample: a readable backing file holding the truthy
non-collection value 42 is returned as-is by the load path, not replaced by
the empty collection. -/
theorem load_keeps_truthy_scalar_cex :
    readJson (.parsed (.jnum 42)) (.jarr []) = .jnum 42
    ∧ readJson (.parsed (.jnum 42)) (.jarr []) ≠ .jarr []
    ∧ loadPending (.parsed (.jnum 42)) = .jnum 42 := by
  refine ⟨rfl, ?_, rfl⟩
  intro h
  exact JVal.noConfusion (show JVal.jnum 42 = JVal.jarr [] from h)

/-- Claim C8 amended: load is total and never throws; an absent file, a
read/parse failure, an empty file and any falsy decoded value (null, false,
0, the empty string) all fall back to the caller's empty collection, while
any truthy decoded value — a collection or a truthy scalar alike — is
returned unchanged. -/
theorem load_total_fallback (f : FileState) (d : JVal) :
    (f = .absent → readJson f d = d)
    ∧ (f = .unreadable → readJson f d = d)
    ∧ (f = .emptyContent → readJson f d = d)
    ∧ (∀ v, f = .parsed v → jsTruthy v = false → readJson f d = d)
    ∧ (∀ v, f = .parsed v → jsTruthy v = true → readJson f d = v) :=
  ⟨fun h => by subst h; rfl,
   fun h => by subst h; rfl,
   fun h => by subst h; rfl,
   fun v hv hf => by subst hv; simp [readJson, hf],
   fun v hv ht => by subst hv; simp [readJson, ht]⟩

/-- Claim C8 amended witness: concrete loads for each backing-file state,
with the collection defaults used at startup. -/
theorem load_total_fallback_witness :
    readJson .absent (.jarr []) = .jarr []
    ∧ readJson .unreadable (.jobj []) = .jobj []
    ∧ readJson .emptyContent (.jarr []) = .jarr []
    ∧ readJson (.parsed .null) (.jobj []) = .jobj []
    ∧ readJson (.parsed (.jarr [.jnum 1])) (.jarr []) = .jarr [.jnum 1] :=
  ⟨(load_total_fallback .absent (.jarr [])).1 rfl,
   (load_total_fallback .unreadable (.jobj [])).2.1 rfl,
   (load_total_fallback .emptyContent (.jarr [])).2.2.1 rfl,
   (load_total_fallback (.parsed .null) (.jobj [])).2.2.2.1 .null rfl rfl,
   (load_total_fallback (.parsed (.jarr [.jnum 1]))
     (.jarr [])).2.2.2.2 (.jarr [.jnum 1]) rfl rfl⟩

theorem reconcileAux_forall₂ (live : List String) (fresh : Nat → String) :
    ∀ (reqs : List LinkRequest) (k : Nat),
      ((reconcileAux live fresh k reqs).2.map Prod.fst
        = (reqs.filter (needsRender live)).map LinkRequest.id)
      ∧ List.Forall₂ (fun r r' =>
          if needsRender live r = true
          then ∃ j, r' = { r with messageId := some (fresh j) }
          else r' = r) reqs (reconcileAux live fresh k reqs).1 := by
  intro reqs
  induction reqs with
  | nil => intro k; exact ⟨rfl, List.Forall₂.nil⟩
  | cons r rs ih =>
    intro k
    by_cases hr : needsRender live r = true
    · have hrec : reconcileAux live fresh k (r :: rs)
          = ({ r with messageId := some (fresh k) }
              :: (reconcileAux live fresh (k + 1) rs).1,
            (r.id, fresh k) :: (reconcileAux live fresh (k + 1) rs).2) := by
        simp [reconcileAux, hr]
      refine ⟨?_, ?_⟩
      · rw [hrec]
        simp [List.filter_cons, hr, (ih (k + 1)).1]
      · rw [hrec]
        exact List.Forall₂.cons (by rw [if_pos hr]; exact ⟨k, rfl⟩)
          (ih (k + 1)).2
    · have hrec : reconcileAux live fresh k (r :: rs)
          = (r :: (reconcileAux live fresh k rs).1,
            (reconcileAux live fresh k rs).2) := by
        simp [reconcileAux, hr]
      refine ⟨?_, ?_⟩
      · rw [hrec]
        simp [List.filter_cons, hr, (ih k).1]
      · rw [hrec]
        exact List.Forall₂.cons (by rw [if_neg hr]) (ih k).2

/-- Claim C9: startup reconciliation renders exactly one new artifact for
each persisted pending request whose saved message id is unset or no longer
fetchable (storing a fresh message id on it), performs no re-render for a
pending request whose message is still live, and never touches a request in
a terminal status. -/
theorem reconcile_pending_exactly_once (live : List String)
    (fresh : Nat → String) (reqs : List LinkRequest) (k : Nat) :
    ((reconcileAux live fresh k reqs).2.map Prod.fst
      = (reqs.filter (needsRender live)).map LinkRequest.id)
    ∧ ((reconcileAux live fresh k reqs).1.length = reqs.length)
    ∧ ∀ (i : Nat) (hi : i < reqs.length)
        (ho : i < (reconcileAux live fresh k reqs).1.length),
        (needsRender live (reqs.get ⟨i, hi⟩) = false →
          (reconcileAux live fresh k reqs).1.get ⟨i, ho⟩
            = reqs.get ⟨i, hi⟩)
        ∧ (needsRender live (reqs.get ⟨i, hi⟩) = true →
            ∃ j, (reconcileAux live fresh k reqs).1.get ⟨i, ho⟩
              = { reqs.get ⟨i, hi⟩ with messageId := some (fresh j) }) := by
  obtain ⟨h1, h2⟩ := reconcileAux_forall₂ live fresh reqs k
  refine ⟨h1, h2.length_eq.symm, ?_⟩
  intro i hi ho
  have hrel := (List.forall₂_iff_get.mp h2).2 i hi ho
  constructor
  · intro h0
    rw [if_neg (by rw [h0]; simp)] at hrel
    exact hrel
  · intro h0
    rw [if_pos h0] at hrel
    exact hrel

/-- Claim C9 witness: on a concrete persisted collection holding a
never-rendered pending request, a pending request with a live message and
an approved request, reconciliation renders exactly the first one, stores a
message id on it, and leaves the other two untouched. -/
theorem reconcile_pending_exactly_once_witness :
    ((reconcile ["m2"] sampleFresh sampleReqs).2.map Prod.fst = [reqId 10 1])
    ∧ (reconcile ["m2"] sampleFresh sampleReqs).1.length = sampleReqs.length
    ∧ ((reconcile ["m2"] sampleFresh sampleReqs).1.get ⟨0, by decide⟩
        ).messageId.isSome = true
    ∧ (reconcile ["m2"] sampleFresh sampleReqs).1.get ⟨1, by decide⟩
        = reqPendLive
    ∧ (reconcile ["m2"] sampleFresh sampleReqs).1.get ⟨2, by decide⟩
        = reqDone := by
  have h := reconcile_pending_exactly_once ["m2"] sampleFresh sampleReqs 0
  refine ⟨h.1.trans (by decide), h.2.1.trans (by decide), ?_, ?_, ?_⟩
  · obtain ⟨j, hj⟩ := (h.2.2 0 (by decide) (by decide)).2 (by decide)
    rw [show ((reconcile ["m2"] sampleFresh sampleReqs).1.get
      ⟨0, by decide⟩) = (reconcileAux ["m2"] sampleFresh 0 sampleReqs).1.get
      ⟨0, by decide⟩ from rfl, hj]
    rfl
  · exact ((h.2.2 1 (by decide) (by decide)).1 (by decide)).trans (by decide)
  · exact ((h.2.2 2 (by decide) (by decide)).1 (by decide)).trans (by decide)

/-- Claim C10: a generated request id never contains an underscore, so
splitting the button custom id `link_accept_<id>` or `link_reject_<id>` on
underscores recovers exactly the original action word and the original
request id. -/
theorem custom_id_round_trip (t r : Nat) :
    (reqId t r).data.contains '_' = false
    ∧ parseCustomId (acceptCustomId (reqId t r))
        = (some "accept", some (reqId t r))
    ∧ parseCustomId (rejectCustomId (reqId t r))
        = (some "reject", some (reqId t r)) := by
  have hid : '_' ∉ (reqId t r).data := by
    intro hmem
    have hd : (reqId t r).data = natDigits t ++ '-' :: natDigits r := rfl
    rw [hd] at hmem
    rcases List.mem_append.mp hmem with h | h
    · exact underscore_not_mem_natDigits t h
    · rcases List.mem_cons.mp h with h | h
      · exact absurd h (by decide)
      · exact underscore_not_mem_natDigits r h
  refine ⟨?_, ?_, ?_⟩
  · rw [← Bool.not_eq_true]
    exact fun hc => hid (List.elem_iff.mp hc)
  · have hdata : (acceptCustomId (reqId t r)).data
        = "link".data ++ '_' :: ("accept".data ++ '_' :: (reqId t r).data) := by
      show ("link_accept_" ++ reqId t r).data = _
      rw [String.data_append]
      have h0 : "link_accept_".data
          = ("link".data ++ '_' :: "accept".data) ++ ['_'] := by decide
      rw [h0]
      simp [List.append_assoc]
    have hsplit : jsSplit '_' (acceptCustomId (reqId t r)).data
        = ["link".data, "accept".data, (reqId t r).data] := by
      rw [hdata, jsSplit_sep_append (by decide),
        jsSplit_sep_append (by decide), jsSplit_no_sep hid]
    simp only [parseCustomId]
    rw [hsplit]
    simp [mk_data]
  · have hdata : (rejectCustomId (reqId t r)).data
        = "link".data ++ '_' :: ("reject".data ++ '_' :: (reqId t r).data) := by
      show ("link_reject_" ++ reqId t r).data = _
      rw [String.data_append]
      have h0 : "link_reject_".data
          = ("link".data ++ '_' :: "reject".data) ++ ['_'] := by decide
      rw [h0]
      simp [List.append_assoc]
    have hsplit : jsSplit '_' (rejectCustomId (reqId t r)).data
        = ["link".data, "reject".data, (reqId t r).data] := by
      rw [hdata, jsSplit_sep_append (by decide),
        jsSplit_sep_append (by decide), jsSplit_no_sep hid]
    simp only [parseCustomId]
    rw [hsplit]
    simp [mk_data]

end Pearlbot
